import Mathlib

/-
Verification of the Window-Transparency tool's persistence model,
identity derivation and hover-reconciliation loop, as a shallow
embedding of `transparency_tool/persistence.py`, `windows_api.py`
and `app.py`.

Modelling conventions:
* Python values flowing through the store's public API and through the
  JSON layer are modelled by one inductive type `JValue`
  (JSON null/bool/int/string/array/object, which also covers the Python
  values `None`, `bool`, `int`, `str`, `list`, `dict` that the code
  inspects with `isinstance`).  Python treats `bool` as a subclass of
  `int`, so the `isinstance(value, int)` test accepts booleans; a stored
  boolean alpha behaves exactly as the integer 0 or 1, which is how it is
  represented here.
* Python dicts are modelled as association lists with unique keys in
  insertion order; `dictInsert` replaces in place or appends, exactly the
  Python assignment `d[k] = v`.
* The `json` module is external to the repository, so serialisation
  (`json.dumps`) and parsing (`json.loads`) are parameters `jdump` /
  `jparse`; theorems assume only the round-trip facts they need, and the
  concrete codec `encodeJ` / `decodeJ` below discharges those assumptions
  in witnesses.
* The disk is two slots: `main` models the settings path and `bak` the
  sibling path with ".bak" appended to the suffix
  (`path.with_suffix(path.suffix + ".bak")`).  `_flush_locked` writes a
  temporary sibling and atomically replaces `main`; the net effect on the
  two slots is `main := serialised store`.
-/

namespace WT

/-- A JSON / Python value as inspected by the persistence layer. -/
inductive JValue where
  | jnull : JValue
  | jbool (b : Bool) : JValue
  | jint (n : Int) : JValue
  | jstr (s : String) : JValue
  | jarr (xs : List JValue) : JValue
  | jobj (fields : List (String × JValue)) : JValue
deriving Repr

/-- Python `isinstance(v, int)`: true for ints and for bools (bool is a
subclass of int in Python). -/
def isinstance_int : JValue → Bool
  | .jint _ => true
  | .jbool _ => true
  | _ => false

/-- The integer value of a Python int, with `True = 1`, `False = 0`. -/
def jvalInt : JValue → Int
  | .jint n => n
  | .jbool b => if b then 1 else 0
  | _ => 0

/-- The Python-int view of a value: `some n` exactly when
`isinstance(v, int)` holds, booleans counting as 0 and 1. -/
def pyIntOf : JValue → Option Int
  | .jint n => some n
  | .jbool b => some (if b then 1 else 0)
  | _ => none

/-- Python truthiness `bool(v)` on the values the JSON layer produces. -/
def truthy : JValue → Bool
  | .jnull => false
  | .jbool b => b
  | .jint n => n != 0
  | .jstr s => s ≠ ""
  | .jarr xs => !xs.isEmpty
  | .jobj fields => !fields.isEmpty

/-- `TransparencyConfig._is_valid_alpha`: an int (or bool) in [0, 255]. -/
def is_valid_alpha (v : JValue) : Bool :=
  isinstance_int v && (0 ≤ jvalInt v && jvalInt v ≤ 255)

/-- The same validity test applied to an already-unwrapped int field
(`_is_valid_alpha(config.hover_alpha)`). -/
def is_valid_alpha_int (n : Int) : Bool :=
  0 ≤ n && n ≤ 255

section DictOps

variable {κ : Type} {α : Type} [DecidableEq κ]

/-- Python `d.get(k)`: the value at `k`, keys being unique. -/
def dictLookup : List (κ × α) → κ → Option α
  | [], _ => none
  | kv :: rest, k => if kv.1 = k then some kv.2 else dictLookup rest k

/-- Python `d[k] = v`: replace in place if present, else append. -/
def dictInsert : List (κ × α) → κ → α → List (κ × α)
  | [], k, v => [(k, v)]
  | kv :: rest, k, v =>
      if kv.1 = k then (k, v) :: rest else kv :: dictInsert rest k v

/-- Python `del d[k]` / `d.pop(k, None)`. -/
def dictErase : List (κ × α) → κ → List (κ × α)
  | [], _ => []
  | kv :: rest, k => if kv.1 = k then rest else kv :: dictErase rest k

/-- Python `k in d`. -/
def dictMem (d : List (κ × α)) (k : κ) : Bool :=
  (dictLookup d k).isSome

/-- The keys of an association list. -/
def dictKeys (d : List (κ × α)) : List κ :=
  d.map Prod.fst

end DictOps

/-- The Python dict produced by iterating a JSON object's key/value
pairs (last occurrence of a duplicate key wins, first position kept). -/
def pyDictOfObj (l : List (String × JValue)) : List (String × JValue) :=
  l.foldl (fun d kv => dictInsert d kv.1 kv.2) []

/-- `TransparencyConfig`: per-identity transparency configuration. -/
structure TransparencyConfig where
  default_alpha : Int
  hover_alpha : Int
  hover_enabled : Bool
deriving Repr, DecidableEq

/-- `TransparencyConfig.clone` (a field-for-field copy). -/
def TransparencyConfig.clone (c : TransparencyConfig) : TransparencyConfig :=
  ⟨c.default_alpha, c.hover_alpha, c.hover_enabled⟩

/-- `TransparencyConfig.to_payload`. -/
def to_payload (c : TransparencyConfig) : JValue :=
  .jobj [("default_alpha", .jint c.default_alpha),
         ("hover_alpha", .jint c.hover_alpha),
         ("hover_enabled", .jbool c.hover_enabled)]

/-- `TransparencyConfig.from_payload`, translated clause by clause from
the source: the `isinstance(payload, int)` branch (which accepts
booleans), then the `isinstance(payload, dict)` branch with
`payload.get("default_alpha", payload.get("alpha"))`,
`payload.get("hover_alpha", default_alpha)` guarded by
`_is_valid_alpha`, and `bool(payload.get("hover_enabled", False))`;
every other shape raises `ValueError`. -/
def from_payload (payload : JValue) : Except String TransparencyConfig :=
  if isinstance_int payload then
    if is_valid_alpha payload then
      .ok ⟨jvalInt payload, jvalInt payload, false⟩
    else
      .error "alpha must be an integer between 0 and 255"
  else
    match payload with
    | .jobj l =>
        let d := pyDictOfObj l
        let default_candidate : JValue :=
          match dictLookup d "default_alpha" with
          | some v => v
          | none => (dictLookup d "alpha").getD .jnull
        if is_valid_alpha default_candidate then
          let default_alpha := jvalInt default_candidate
          let hover_candidate := (dictLookup d "hover_alpha").getD (.jint default_alpha)
          let hover_alpha :=
            if is_valid_alpha hover_candidate then jvalInt hover_candidate
            else default_alpha
          let hover_enabled := truthy ((dictLookup d "hover_enabled").getD (.jbool false))
          .ok ⟨default_alpha, hover_alpha, hover_enabled⟩
        else
          .error "default_alpha is invalid"
    | _ => .error "Unsupported payload type"

/-- The validate/coerce function as claim C4, amended, describes it:
bare Python integers (booleans counting as 0/1) map to the legacy
shorthand; records take defaultAlpha from `default_alpha` or the alias
`alpha` (required, in-range integer), hoverAlpha from `hover_alpha`
when it is an in-range integer and defaultAlpha otherwise, and
hoverEnabled as the truthiness of `hover_enabled`, defaulting to false;
all other shapes fail. -/
def from_payload_spec (payload : JValue) : Except String TransparencyConfig :=
  match payload with
  | .jint n =>
      if 0 ≤ n ∧ n ≤ 255 then .ok ⟨n, n, false⟩
      else .error "alpha must be an integer between 0 and 255"
  | .jbool b =>
      .ok ⟨if b then 1 else 0, if b then 1 else 0, false⟩
  | .jobj l =>
      let d := pyDictOfObj l
      let defaultField : Option JValue :=
        match dictLookup d "default_alpha" with
        | some v => some v
        | none => dictLookup d "alpha"
      match defaultField with
      | some w =>
          match pyIntOf w with
          | some n =>
              if 0 ≤ n ∧ n ≤ 255 then
                let hover : Int :=
                  match (dictLookup d "hover_alpha").map pyIntOf with
                  | some (some m) => if 0 ≤ m ∧ m ≤ 255 then m else n
                  | some none => n
                  | none => n
                let enabled : Bool :=
                  match dictLookup d "hover_enabled" with
                  | some w2 => truthy w2
                  | none => false
                .ok ⟨n, hover, enabled⟩
              else .error "default_alpha is invalid"
          | none => .error "default_alpha is invalid"
      | none => .error "default_alpha is invalid"
  | _ => .error "Unsupported payload type"

/-- `WindowInfo` (windows_api.py): one enumerated top-level window.
`process_path` is `Optional[str]`. -/
structure WindowInfo where
  handle : Nat
  title : String
  class_name : String
  process_id : Nat
  process_path : Option String
deriving Repr, DecidableEq

/-- Python `s or d` for strings: `d` when `s` is empty (falsy). -/
def strOr (s d : String) : String :=
  if s = "" then d else s

/-- Python `o or d` for an optional string: `d` when `o` is `None` or
empty. -/
def optStrOr (o : Option String) (d : String) : String :=
  match o with
  | some s => strOr s d
  | none => d

/-- Python `s.replace("|", "/")` (single-character substitution). -/
def replaceBar (s : String) : String :=
  String.mk (s.toList.map fun c => if c = '|' then '/' else c)

/-- `WindowInfo.identity_key`:
`(process_path or "UNKNOWN").replace("|","/") + "|" + class_name + "|"
+ (title or "UNTITLED").replace("|","/")`.  Note the class name is
interpolated verbatim, without the separator substitution. -/
def identity_key (w : WindowInfo) : String :=
  replaceBar (optStrOr w.process_path "UNKNOWN") ++ "|" ++ w.class_name
    ++ "|" ++ replaceBar (strOr w.title "UNTITLED")

/-- The identity key as claim C6 states it: all three joined fields have
any literal separator replaced, the class name included. -/
def identity_key_claim (w : WindowInfo) : String :=
  replaceBar (optStrOr w.process_path "UNKNOWN") ++ "|"
    ++ replaceBar w.class_name ++ "|" ++ replaceBar (strOr w.title "UNTITLED")

/-- The two disk slots the store touches: `main` is the settings path,
`bak` the sibling path with ".bak" appended to the suffix.  `none`
means the file does not exist. -/
structure Disk where
  main : Option String
  bak : Option String
deriving Repr, DecidableEq

/-- Python `str.isspace()` for one character: the Unicode whitespace
set Python's default `strip()` removes — the ASCII range 09-0D, the
information separators 1C-1F, space, NEL (85), NBSP (A0), Ogham space
(1680), the typographic spaces 2000-200A, the line and paragraph
separators 2028/2029, narrow NBSP (202F), mathematical space (205F)
and ideographic space (3000). -/
def pyIsSpace (c : Char) : Bool :=
  let n := c.toNat
  (9 ≤ n && n ≤ 13) || (28 ≤ n && n ≤ 32) || n = 133 || n = 160
    || n = 5760 || (8192 ≤ n && n ≤ 8202) || n = 8232 || n = 8233
    || n = 8239 || n = 8287 || n = 12288

/-- `raw.strip() == ""`: every character is Python whitespace. -/
def pyStripIsEmpty (s : String) : Bool :=
  s.toList.all pyIsSpace

/-- The JSON document `_flush_locked` serialises:
`{key: config.to_payload() for key, config in self._data.items()}`. -/
def serializeStore (data : List (String × TransparencyConfig)) : JValue :=
  .jobj (data.map fun kv => (kv.1, to_payload kv.2))

/-- `_flush_locked`: write the serialised mapping to a temporary sibling
and atomically replace `main` with it (net effect on the two slots). -/
def flushDisk (jdump : JValue → String) (disk : Disk)
    (data : List (String × TransparencyConfig)) : Disk :=
  { disk with main := some (jdump (serializeStore data)) }

/-- The per-entry loop of `_load`: non-string keys are skipped (JSON
keys are always strings here) and entries whose payload fails
`from_payload` are dropped silently. -/
def parseEntries (d : List (String × JValue)) :
    List (String × TransparencyConfig) :=
  d.foldl
    (fun parsed kv =>
      match from_payload kv.2 with
      | .ok c => dictInsert parsed kv.1 c
      | .error _ => parsed)
    []

/-- The corrupt-file branch of `_load`: best-effort rename of `main`
onto the ".bak" sibling (`renameOk = false` models the swallowed
`OSError`), reset to empty, and immediately flush the empty mapping. -/
def corruptRecover (jdump : JValue → String) (renameOk : Bool)
    (disk : Disk) (raw : String) :
    Disk × List (String × TransparencyConfig) :=
  let disk1 := if renameOk then { main := none, bak := some raw } else disk
  (flushDisk jdump disk1 [], [])

/-- `TransparencyStore._load`, run at construction over the disk:
missing file yields an empty mapping (the parent directory is created,
nothing written); empty or whitespace-only contents yield an empty
mapping with the file untouched; a parse failure or a non-object top
level takes the corrupt-recovery branch; otherwise entries are coerced
one by one. -/
def loadFile (jparse : String → Option JValue) (jdump : JValue → String)
    (renameOk : Bool) (disk : Disk) :
    Disk × List (String × TransparencyConfig) :=
  match disk.main with
  | none => (disk, [])
  | some raw =>
      if pyStripIsEmpty raw then (disk, [])
      else
        match jparse raw with
        | some (JValue.jobj l) => (disk, parseEntries (pyDictOfObj l))
        | some _ => corruptRecover jdump renameOk disk raw
        | none => corruptRecover jdump renameOk disk raw

/-- The store's state: the in-memory mapping plus the disk it mirrors. -/
structure StoreState where
  data : List (String × TransparencyConfig)
  disk : Disk
deriving Repr, DecidableEq

/-- `TransparencyStore(storage_path)`: construction runs `_load`. -/
def mkStore (jparse : String → Option JValue) (jdump : JValue → String)
    (renameOk : Bool) (disk : Disk) : StoreState :=
  let r := loadFile jparse jdump renameOk disk
  ⟨r.2, r.1⟩

/-- A store constructed over a path whose file does not exist. -/
def initStore : StoreState :=
  ⟨[], ⟨none, none⟩⟩

/-- `TransparencyStore._validate_key`: a non-empty `str`. -/
def validate_key : JValue → Bool
  | .jstr s => s ≠ ""
  | _ => false

/-- The string payload of a key already known to be a `str`. -/
def keyStr : JValue → String
  | .jstr s => s
  | _ => ""

/-- `TransparencyStore.set_default_alpha`.  Operations return the state
at the point the Python call returns or raises, plus the raised error
message if any; validation precedes every mutation. -/
def set_default_alpha (jdump : JValue → String) (s : StoreState)
    (window_key alpha : JValue) : StoreState × Option String :=
  if ¬ validate_key window_key then
    (s, some "window_key must be a non-empty string")
  else if ¬ is_valid_alpha alpha then
    (s, some "alpha must be an integer between 0 and 255")
  else
    let k := keyStr window_key
    let av := jvalInt alpha
    let config :=
      match dictLookup s.data k with
      | none => TransparencyConfig.mk av av false
      | some c =>
          { c with
            default_alpha := av
            hover_alpha :=
              if is_valid_alpha_int c.hover_alpha then c.hover_alpha else av }
    let data := dictInsert s.data k config
    (⟨data, flushDisk jdump s.disk data⟩, none)

/-- `TransparencyStore.set_hover_alpha`.  On an absent key the source
creates `TransparencyConfig(alpha, alpha, hover_enabled=True)`. -/
def set_hover_alpha (jdump : JValue → String) (s : StoreState)
    (window_key alpha : JValue) : StoreState × Option String :=
  if ¬ validate_key window_key then
    (s, some "window_key must be a non-empty string")
  else if ¬ is_valid_alpha alpha then
    (s, some "alpha must be an integer between 0 and 255")
  else
    let k := keyStr window_key
    let av := jvalInt alpha
    let config :=
      match dictLookup s.data k with
      | none => TransparencyConfig.mk av av true
      | some c => { c with hover_alpha := av }
    let data := dictInsert s.data k config
    (⟨data, flushDisk jdump s.disk data⟩, none)

/-- `TransparencyStore.set_hover_enabled`: `enabled` must pass
`isinstance(enabled, bool)` (a genuine boolean, ints not accepted). -/
def set_hover_enabled (jdump : JValue → String) (s : StoreState)
    (window_key enabled : JValue) : StoreState × Option String :=
  if ¬ validate_key window_key then
    (s, some "window_key must be a non-empty string")
  else
    match enabled with
    | .jbool b =>
        let k := keyStr window_key
        let config :=
          match dictLookup s.data k with
          | none => TransparencyConfig.mk 255 255 b
          | some c => { c with hover_enabled := b }
        let data := dictInsert s.data k config
        (⟨data, flushDisk jdump s.disk data⟩, none)
    | _ => (s, some "enabled must be a boolean value")

/-- `TransparencyStore.get_config`: an independent clone, or `None`. -/
def get_config (s : StoreState) (window_key : String) :
    Option TransparencyConfig :=
  (dictLookup s.data window_key).map TransparencyConfig.clone

/-- `TransparencyStore.remove`: delete and flush only when present. -/
def store_remove (jdump : JValue → String) (s : StoreState)
    (window_key : String) : StoreState :=
  if dictMem s.data window_key then
    let data := dictErase s.data window_key
    ⟨data, flushDisk jdump s.disk data⟩
  else s

/-- `TransparencyStore.all`: a dict of clones. -/
def store_all (s : StoreState) : List (String × TransparencyConfig) :=
  s.data.map fun kv => (kv.1, kv.2.clone)

/-- The actuator environment for one tick: whether
`set_window_transparency(handle, alpha)` returns normally (`true`) or
raises (`false`) — covering invalid handles, rejected OS calls and any
other exception the tick's `except` swallows. -/
structure TickEnv where
  setAlphaOk : Nat → Int → Bool

/-- The running state of one `_apply_hover_states` call: the
`applied_alphas` cache and the actuator calls made so far, each
recorded as (handle, alpha, succeeded). -/
structure TickAcc where
  cache : List (String × Int)
  calls : List (Nat × Int × Bool)
deriving Repr, DecidableEq

/-- `window_map = (info.identity_key: info for info in windows)` —
last wins on identity collisions. -/
def buildWindowMap (windows : List WindowInfo) :
    List (String × WindowInfo) :=
  windows.foldl (fun m i => dictInsert m (identity_key i) i) []

/-- The Python condition
`hovered_root and info.handle == hovered_root`: `None` and the handle
`0` are falsy. -/
def hoverMatch (hoveredRoot : Option Nat) (handle : Nat) : Bool :=
  match hoveredRoot with
  | none => false
  | some h => h ≠ 0 && handle = h

/-- The body of the per-identity loop in `_apply_hover_states`. -/
def hoverStep (env : TickEnv) (wm : List (String × WindowInfo))
    (hoveredRoot : Option Nat) (acc : TickAcc)
    (kv : String × TransparencyConfig) : TickAcc :=
  match dictLookup wm kv.1 with
  | none => { acc with cache := dictErase acc.cache kv.1 }
  | some info =>
      let target :=
        if kv.2.hover_enabled && hoverMatch hoveredRoot info.handle then
          kv.2.hover_alpha
        else kv.2.default_alpha
      if dictLookup acc.cache kv.1 = some target then acc
      else if env.setAlphaOk info.handle target then
        { cache := dictInsert acc.cache kv.1 target
          calls := acc.calls ++ [(info.handle, target, true)] }
      else
        { acc with calls := acc.calls ++ [(info.handle, target, false)] }

/-- `TransparencyApp._apply_hover_states` for one tick, given the
settings snapshot (`store.all()`), the enumerated windows (own process
already excluded), the root window the cursor query would report
(`none` on query failure), and the incoming `applied_alphas` cache.
The cursor is only queried when some configuration has hover enabled;
otherwise `hovered_root` stays `None`. -/
def apply_hover_states (env : TickEnv)
    (settings : List (String × TransparencyConfig))
    (windows : List WindowInfo) (queriedRoot : Option Nat)
    (cache : List (String × Int)) : TickAcc :=
  if settings.isEmpty then { cache := [], calls := [] }
  else
    let hoveredRoot :=
      if settings.any (fun kv => kv.2.hover_enabled) then queriedRoot
      else none
    settings.foldl (hoverStep env (buildWindowMap windows) hoveredRoot)
      { cache := cache, calls := [] }

/-
A small heap model, used only to state the isolation claim (C8): config
objects live in numbered cells, the store's dict maps identity keys to
cell references, and `clone` allocates a fresh cell.  Caller mutation of
a returned object is a `heapWrite` at the returned reference.
-/

/-- A heap of `TransparencyConfig` objects. -/
structure Heap where
  next : Nat
  cells : List (Nat × TransparencyConfig)
deriving Repr, DecidableEq

/-- Dereference a cell. -/
def heapRead (h : Heap) (r : Nat) : Option TransparencyConfig :=
  dictLookup h.cells r

/-- Allocate a fresh cell holding `c`. -/
def heapAlloc (h : Heap) (c : TransparencyConfig) : Heap × Nat :=
  (⟨h.next + 1, dictInsert h.cells h.next c⟩, h.next)

/-- Mutate the object in cell `r` (any field assignment on it). -/
def heapWrite (h : Heap) (r : Nat) (c : TransparencyConfig) : Heap :=
  ⟨h.next, dictInsert h.cells r c⟩

/-- The store's state under the heap model: identity keys map to
references to the stored config objects. -/
structure StoreH where
  data : List (String × Nat)
  heap : Heap
deriving Repr, DecidableEq

/-- The configuration value currently stored under a key. -/
def storedVal (s : StoreH) (k : String) : Option TransparencyConfig :=
  (dictLookup s.data k).bind (heapRead s.heap)

/-- `get_config` under the heap model: look the key up and return
`config.clone()`, a freshly allocated copy (or `None`). -/
def get_config_h (s : StoreH) (k : String) : StoreH × Option Nat :=
  match dictLookup s.data k with
  | none => (s, none)
  | some r =>
      match heapRead s.heap r with
      | none => (s, none)
      | some c =>
          let ar := heapAlloc s.heap c
          ({ s with heap := ar.1 }, some ar.2)

/-- `all()` under the heap model: a dict mapping every stored key to a
freshly allocated clone. -/
def all_h (s : StoreH) : StoreH × List (String × Nat) :=
  s.data.foldl
    (fun acc kv =>
      match heapRead acc.1.heap kv.2 with
      | none => acc
      | some c =>
          let ar := heapAlloc acc.1.heap c
          ({ acc.1 with heap := ar.1 }, acc.2 ++ [(kv.1, ar.2)]))
    (s, [])

/-- Well-formed heap store: every stored reference points below the
allocation frontier. -/
def StoreH.wf (s : StoreH) : Prop :=
  ∀ kv ∈ s.data, kv.2 < s.heap.next

/-
A concrete executable codec standing in for the `json` module in
witnesses.  `encodeJ` is a simple tagged prefix encoding and `decodeJ`
a fuel-indexed decoder; theorems only ever assume round-trip facts at
specific values, which these definitions discharge by evaluation.
-/

/-- Digits of a natural number. -/
def natDigits : Nat → List Char
  | n => (toString n).toList

/-- Encode an integer as text. -/
def intText (n : Int) : List Char :=
  (toString n).toList

mutual

/-- The tagged prefix encoding of a `JValue`. -/
def encodeJList : JValue → List Char
  | .jnull => ['n']
  | .jbool true => ['t']
  | .jbool false => ['f']
  | .jint n => 'i' :: (intText n ++ [';'])
  | .jstr s => 's' :: (natDigits s.length ++ [';'] ++ s.toList)
  | .jarr xs => 'a' :: (encodeJArr xs ++ ['e'])
  | .jobj l => 'o' :: (encodeJFields l ++ ['e'])

/-- Encode the items of an array. -/
def encodeJArr : List JValue → List Char
  | [] => []
  | v :: vs => encodeJList v ++ encodeJArr vs

/-- Encode the fields of an object. -/
def encodeJFields : List (String × JValue) → List Char
  | [] => []
  | (k, v) :: rest =>
      'k' :: (natDigits k.length ++ [';'] ++ k.toList)
        ++ encodeJList v ++ encodeJFields rest

end

/-- Serialisation for witnesses (the `json.dumps` stand-in). -/
def encodeJ (v : JValue) : String :=
  String.mk (encodeJList v)

/-- Read a decimal natural number up to the next `;`. -/
def readNat (cs : List Char) : Option (Nat × List Char) :=
  let digits := cs.takeWhile fun c => c.isDigit
  let rest := cs.dropWhile fun c => c.isDigit
  match rest with
  | ';' :: rest2 =>
      if digits.isEmpty then none
      else some (digits.foldl (fun a c => a * 10 + (c.toNat - 48)) 0, rest2)
  | _ => none

/-- Read an integer (optional minus sign) up to the next `;`. -/
def readInt (cs : List Char) : Option (Int × List Char) :=
  match cs with
  | '-' :: rest =>
      (readNat rest).map fun p => (-(p.1 : Int), p.2)
  | _ => (readNat cs).map fun p => ((p.1 : Int), p.2)

mutual

/-- Fuel-indexed decoder for one value. -/
def decodeVal : Nat → List Char → Option (JValue × List Char)
  | 0, _ => none
  | _ + 1, [] => none
  | _ + 1, 'n' :: rest => some (.jnull, rest)
  | _ + 1, 't' :: rest => some (.jbool true, rest)
  | _ + 1, 'f' :: rest => some (.jbool false, rest)
  | _ + 1, 'i' :: rest =>
      (readInt rest).map fun p => (.jint p.1, p.2)
  | _ + 1, 's' :: rest =>
      match readNat rest with
      | some (len, rest2) =>
          if len ≤ rest2.length then
            some (.jstr (String.mk (rest2.take len)), rest2.drop len)
          else none
      | none => none
  | fuel + 1, 'a' :: rest =>
      (decodeItems fuel rest).map fun p => (.jarr p.1, p.2)
  | fuel + 1, 'o' :: rest =>
      (decodeFields fuel rest).map fun p => (.jobj p.1, p.2)
  | _ + 1, _ => none

/-- Decode array items until the terminator `e`. -/
def decodeItems : Nat → List Char → Option (List JValue × List Char)
  | 0, _ => none
  | _ + 1, 'e' :: rest => some ([], rest)
  | fuel + 1, cs =>
      match decodeVal fuel cs with
      | some (v, rest) =>
          (decodeItems fuel rest).map fun p => (v :: p.1, p.2)
      | none => none

/-- Decode object fields until the terminator `e`. -/
def decodeFields : Nat → List Char →
    Option (List (String × JValue) × List Char)
  | 0, _ => none
  | _ + 1, 'e' :: rest => some ([], rest)
  | fuel + 1, 'k' :: cs =>
      match readNat cs with
      | some (len, rest2) =>
          if len ≤ rest2.length then
            match decodeVal fuel (rest2.drop len) with
            | some (v, rest3) =>
                (decodeFields fuel rest3).map fun p =>
                  ((String.mk (rest2.take len), v) :: p.1, p.2)
            | none => none
          else none
      | none => none
  | _ + 1, _ => none

end

/-- Parsing for witnesses (the `json.loads` stand-in). -/
def decodeJ (s : String) : Option JValue :=
  match decodeVal (s.length + 1) s.toList with
  | some (v, []) => some v
  | _ => none

/-- Both alpha fields in [0, 255] — the data-model invariant every
stored configuration satisfies. -/
def validCfg (c : TransparencyConfig) : Prop :=
  0 ≤ c.default_alpha ∧ c.default_alpha ≤ 255
    ∧ 0 ≤ c.hover_alpha ∧ c.hover_alpha ≤ 255

/-- Keys of an association list are pairwise distinct (the Python dict
representation invariant). -/
def keysUnique {κ α : Type} [DecidableEq κ] (d : List (κ × α)) : Prop :=
  (dictKeys d).Nodup

/-- One public mutating call on the store, with the arguments a caller
storing configurations passes (string key, int alpha, bool flag). -/
inductive StoreOp where
  | setDefault (k : String) (a : Int) : StoreOp
  | setHover (k : String) (a : Int) : StoreOp
  | setEnabled (k : String) (b : Bool) : StoreOp
  | removeKey (k : String) : StoreOp

/-- Run one store operation (a raised `ValueError` leaves the state as
it was). -/
def runOp (jdump : JValue → String) (s : StoreState) : StoreOp → StoreState
  | .setDefault k a => (set_default_alpha jdump s (.jstr k) (.jint a)).1
  | .setHover k a => (set_hover_alpha jdump s (.jstr k) (.jint a)).1
  | .setEnabled k b => (set_hover_enabled jdump s (.jstr k) (.jbool b)).1
  | .removeKey k => store_remove jdump s k

/-- Run a sequence of store operations. -/
def runOps (jdump : JValue → String) (s : StoreState)
    (ops : List StoreOp) : StoreState :=
  ops.foldl (runOp jdump) s

/-- The store's state invariant: unique keys, every stored configuration
valid, and the disk mirroring the in-memory mapping (or the initial
no-file state with an empty mapping). -/
def StoreInv (jdump : JValue → String) (s : StoreState) : Prop :=
  keysUnique s.data ∧ (∀ kv ∈ s.data, validCfg kv.2)
    ∧ (s.disk.main = some (jdump (serializeStore s.data))
        ∨ (s.data = [] ∧ s.disk.main = none))

/-- The configuration value a caller observes through `get_config` in
the heap model: the contents of the returned fresh cell. -/
def get_config_val (s : StoreH) (k : String) : Option TransparencyConfig :=
  match get_config_h s k with
  | (s2, some r) => heapRead s2.heap r
  | (_, none) => none

/-
Helper lemmas about the association-list dictionary model.
-/

section DictLemmas

variable {κ : Type} {α : Type} [DecidableEq κ]

lemma dictLookup_insert_self (d : List (κ × α)) (k : κ) (v : α) :
    dictLookup (dictInsert d k v) k = some v := by
  induction d with
  | nil => simp [dictInsert, dictLookup]
  | cons kv rest ih =>
      by_cases h : kv.1 = k
      · simp [dictInsert, dictLookup, h]
      · simp [dictInsert, dictLookup, h, ih]

lemma dictLookup_insert_ne (d : List (κ × α)) (k k2 : κ) (v : α)
    (h : k ≠ k2) : dictLookup (dictInsert d k v) k2 = dictLookup d k2 := by
  induction d with
  | nil => simp [dictInsert, dictLookup, h]
  | cons kv rest ih =>
      by_cases h2 : kv.1 = k
      · simp [dictInsert, dictLookup, h2, h]
      · by_cases h3 : kv.1 = k2
        · simp [dictInsert, dictLookup, h2, h3, Ne.symm h]
        · simp [dictInsert, dictLookup, h2, h3, ih]

lemma dictLookup_eq_none_iff (d : List (κ × α)) (k : κ) :
    dictLookup d k = none ↔ k ∉ dictKeys d := by
  induction d with
  | nil => simp [dictLookup, dictKeys]
  | cons kv rest ih =>
      by_cases h : kv.1 = k
      · simp [dictLookup, dictKeys, h]
      · simp only [dictLookup, if_neg h, dictKeys, List.map_cons,
          List.mem_cons, ih]
        constructor
        · intro h2 h3
          rcases h3 with h3 | h3
          · exact h h3.symm
          · exact h2 h3
        · intro h2 h3
          exact h2 (Or.inr h3)

lemma dictKeys_insert (d : List (κ × α)) (k : κ) (v : α) :
    dictKeys (dictInsert d k v) =
      if k ∈ dictKeys d then dictKeys d else dictKeys d ++ [k] := by
  induction d with
  | nil => simp [dictInsert, dictKeys]
  | cons kv rest ih =>
      by_cases h : kv.1 = k
      · simp [dictInsert, dictKeys, h]
      · have hne : ¬ k = kv.1 := fun hc => h hc.symm
        simp only [dictInsert, if_neg h, dictKeys, List.map_cons] at ih ⊢
        by_cases h2 : k ∈ List.map Prod.fst rest
        · rw [if_pos h2] at ih
          rw [ih, if_pos (List.mem_cons.mpr (Or.inr h2))]
        · rw [if_neg h2] at ih
          rw [ih, if_neg (by simp [List.mem_cons, hne, h2])]
          simp

lemma keysUnique_insert (d : List (κ × α)) (k : κ) (v : α)
    (h : keysUnique d) : keysUnique (dictInsert d k v) := by
  unfold keysUnique at *
  rw [dictKeys_insert]
  by_cases h2 : k ∈ dictKeys d
  · simpa [h2] using h
  · rw [if_neg h2, List.nodup_append]
    refine ⟨h, List.nodup_singleton _, ?_⟩
    intro x hx hc
    simp only [List.mem_singleton] at hc
    subst hc
    exact h2 hx

lemma dictKeys_erase_sublist (d : List (κ × α)) (k : κ) :
    (dictKeys (dictErase d k)).Sublist (dictKeys d) := by
  induction d with
  | nil => simp [dictErase, dictKeys]
  | cons kv rest ih =>
      by_cases h : kv.1 = k
      · simp only [dictErase, if_pos h, dictKeys, List.map_cons]
        exact List.Sublist.cons _ (List.Sublist.refl _)
      · simp only [dictErase, if_neg h, dictKeys, List.map_cons]
        exact List.Sublist.cons₂ _ ih

lemma keysUnique_erase (d : List (κ × α)) (k : κ)
    (h : keysUnique d) : keysUnique (dictErase d k) := by
  exact List.Nodup.sublist (dictKeys_erase_sublist d k) h

lemma dictLookup_erase_of_nodup (d : List (κ × α)) (k : κ)
    (h : keysUnique d) : dictLookup (dictErase d k) k = none := by
  induction d with
  | nil => simp [dictErase, dictLookup]
  | cons kv rest ih =>
      have hhead : kv.1 ∉ dictKeys rest := by
        have := h
        simp only [keysUnique, dictKeys, List.map_cons,
          List.nodup_cons] at this
        exact this.1
      have hnd : keysUnique rest := by
        have := h
        simp only [keysUnique, dictKeys, List.map_cons,
          List.nodup_cons] at this
        exact this.2
      by_cases h2 : kv.1 = k
      · simp only [dictErase, if_pos h2]
        subst h2
        exact (dictLookup_eq_none_iff rest kv.1).mpr hhead
      · simp only [dictErase, if_neg h2, dictLookup, if_neg h2]
        exact ih hnd

lemma dictErase_of_none (d : List (κ × α)) (k : κ)
    (h : dictLookup d k = none) : dictErase d k = d := by
  induction d with
  | nil => simp [dictErase]
  | cons kv rest ih =>
      by_cases h2 : kv.1 = k
      · simp [dictLookup, h2] at h
      · simp only [dictLookup, if_neg h2] at h
        simp [dictErase, h2, ih h]

lemma dictLookup_mem (d : List (κ × α)) (k : κ) (v : α)
    (h : dictLookup d k = some v) : (k, v) ∈ d := by
  induction d with
  | nil => simp [dictLookup] at h
  | cons kv rest ih =>
      by_cases h2 : kv.1 = k
      · simp only [dictLookup, if_pos h2] at h
        cases h
        cases kv
        simp_all
      · simp only [dictLookup, if_neg h2] at h
        exact List.mem_cons_of_mem _ (ih h)

lemma mem_dictInsert (d : List (κ × α)) (k : κ) (v : α) (kv : κ × α)
    (h : kv ∈ dictInsert d k v) : kv = (k, v) ∨ kv ∈ d := by
  induction d with
  | nil => simpa [dictInsert] using h
  | cons kv2 rest ih =>
      by_cases h2 : kv2.1 = k
      · simp only [dictInsert, if_pos h2] at h
        rcases List.mem_cons.mp h with h3 | h3
        · exact Or.inl h3
        · exact Or.inr (List.mem_cons_of_mem _ h3)
      · simp only [dictInsert, if_neg h2] at h
        rcases List.mem_cons.mp h with h3 | h3
        · exact Or.inr (by simp [h3])
        · rcases ih h3 with h4 | h4
          · exact Or.inl h4
          · exact Or.inr (List.mem_cons_of_mem _ h4)

lemma mem_dictErase (d : List (κ × α)) (k : κ) (kv : κ × α)
    (h : kv ∈ dictErase d k) : kv ∈ d := by
  induction d with
  | nil => simp [dictErase] at h
  | cons kv2 rest ih =>
      by_cases h2 : kv2.1 = k
      · simp only [dictErase, if_pos h2] at h
        exact List.mem_cons_of_mem _ h
      · simp only [dictErase, if_neg h2] at h
        rcases List.mem_cons.mp h with h3 | h3
        · simp [h3]
        · exact List.mem_cons_of_mem _ (ih h3)

lemma dictInsert_of_fresh (d : List (κ × α)) (k : κ) (v : α)
    (h : dictLookup d k = none) : dictInsert d k v = d ++ [(k, v)] := by
  induction d with
  | nil => simp [dictInsert]
  | cons kv rest ih =>
      by_cases h2 : kv.1 = k
      · simp [dictLookup, h2] at h
      · simp only [dictLookup, if_neg h2] at h
        simp [dictInsert, h2, ih h]

lemma dictLookup_append (a b : List (κ × α)) (k : κ) :
    dictLookup (a ++ b) k =
      match dictLookup a k with
      | some v => some v
      | none => dictLookup b k := by
  induction a with
  | nil => simp [dictLookup]
  | cons kv rest ih =>
      by_cases h : kv.1 = k
      · simp [dictLookup, h]
      · simp [dictLookup, h, ih]

end DictLemmas

/-
Store-level helper lemmas.
-/

lemma clone_eq (c : TransparencyConfig) : c.clone = c := rfl

lemma is_valid_alpha_jint (n : Int) :
    is_valid_alpha (.jint n) = true ↔ (0 ≤ n ∧ n ≤ 255) := by
  simp [is_valid_alpha, isinstance_int, jvalInt]

lemma is_valid_alpha_exists (v : JValue) :
    is_valid_alpha v = true ↔
      ∃ n, pyIntOf v = some n ∧ 0 ≤ n ∧ n ≤ 255 := by
  cases v <;> simp [is_valid_alpha, isinstance_int, jvalInt, pyIntOf]

lemma foldl_dictInsert_fresh {κ α : Type} [DecidableEq κ] :
    ∀ (l base : List (κ × α)),
      (∀ k ∈ dictKeys l, dictLookup base k = none) → keysUnique l →
      l.foldl (fun d kv => dictInsert d kv.1 kv.2) base = base ++ l := by
  intro l
  induction l with
  | nil => intro base _ _; simp
  | cons kv rest ih =>
      intro base hfresh hnd
      have hbase : dictLookup base kv.1 = none :=
        hfresh kv.1 (by simp [dictKeys])
      have hstep : dictInsert base kv.1 kv.2 = base ++ [kv] := by
        rw [dictInsert_of_fresh base kv.1 kv.2 hbase]
      have hhead : kv.1 ∉ dictKeys rest := by
        have := hnd
        simp only [keysUnique, dictKeys, List.map_cons,
          List.nodup_cons] at this
        exact this.1
      have hndr : keysUnique rest := by
        have := hnd
        simp only [keysUnique, dictKeys, List.map_cons,
          List.nodup_cons] at this
        exact this.2
      have hfresh2 : ∀ k ∈ dictKeys rest,
          dictLookup (base ++ [kv]) k = none := by
        intro k hk
        rw [dictLookup_append]
        have h1 : dictLookup base k = none :=
          hfresh k (by simp [dictKeys]; right; simpa [dictKeys] using hk)
        have h2 : dictLookup [kv] k = none := by
          have : kv.1 ≠ k := fun hc => hhead (hc ▸ hk)
          simp [dictLookup, this]
        simp [h1, h2]
      calc (kv :: rest).foldl (fun d kv2 => dictInsert d kv2.1 kv2.2) base
          = rest.foldl (fun d kv2 => dictInsert d kv2.1 kv2.2)
              (base ++ [kv]) := by simp [hstep]
        _ = (base ++ [kv]) ++ rest := ih (base ++ [kv]) hfresh2 hndr
        _ = base ++ (kv :: rest) := by simp

lemma pyDictOfObj_of_nodup (l : List (String × JValue))
    (h : keysUnique l) : pyDictOfObj l = l := by
  have := foldl_dictInsert_fresh l [] (by intro k _; rfl) h
  simpa [pyDictOfObj] using this

lemma from_payload_to_payload (c : TransparencyConfig) (h : validCfg c) :
    from_payload (to_payload c) = .ok c := by
  obtain ⟨h1, h2, h3, h4⟩ := h
  have hda : is_valid_alpha (JValue.jint c.default_alpha) = true := by
    simp [is_valid_alpha, isinstance_int, jvalInt]
    omega
  have hha : is_valid_alpha (JValue.jint c.hover_alpha) = true := by
    simp [is_valid_alpha, isinstance_int, jvalInt]
    omega
  simp [from_payload, to_payload, pyDictOfObj, dictInsert, dictLookup,
    isinstance_int, hda, hha, jvalInt, truthy]

lemma parseEntries_roundtrip (data : List (String × TransparencyConfig))
    (hnd : keysUnique data) (hv : ∀ kv ∈ data, validCfg kv.2) :
    parseEntries (pyDictOfObj (data.map fun kv => (kv.1, to_payload kv.2)))
      = data := by
  have hkeys : dictKeys (data.map fun kv => (kv.1, to_payload kv.2))
      = dictKeys data := by
    simp [dictKeys, List.map_map, Function.comp]
  have hnd2 : keysUnique (data.map fun kv => (kv.1, to_payload kv.2)) := by
    unfold keysUnique
    rw [hkeys]
    exact hnd
  rw [pyDictOfObj_of_nodup _ hnd2]
  unfold parseEntries
  have haux : ∀ (l : List (String × TransparencyConfig))
      (base : List (String × TransparencyConfig)),
      (∀ k ∈ dictKeys l, dictLookup base k = none) → keysUnique l →
      (∀ kv ∈ l, validCfg kv.2) →
      ((l.map fun kv => (kv.1, to_payload kv.2)).foldl
        (fun parsed kv =>
          match from_payload kv.2 with
          | .ok c => dictInsert parsed kv.1 c
          | .error _ => parsed) base) = base ++ l := by
    intro l
    induction l with
    | nil => intro base _ _ _; simp
    | cons kv rest ih =>
        intro base hfresh hnd3 hv3
        have hok : from_payload (to_payload kv.2) = .ok kv.2 :=
          from_payload_to_payload kv.2 (hv3 kv (by simp))
        have hbase : dictLookup base kv.1 = none :=
          hfresh kv.1 (by simp [dictKeys])
        have hstep : dictInsert base kv.1 kv.2 = base ++ [kv] :=
          dictInsert_of_fresh base kv.1 kv.2 hbase
        have hhead : kv.1 ∉ dictKeys rest := by
          have := hnd3
          simp only [keysUnique, dictKeys, List.map_cons,
            List.nodup_cons] at this
          exact this.1
        have hndr : keysUnique rest := by
          have := hnd3
          simp only [keysUnique, dictKeys, List.map_cons,
            List.nodup_cons] at this
          exact this.2
        have hfresh2 : ∀ k ∈ dictKeys rest,
            dictLookup (base ++ [kv]) k = none := by
          intro k hk
          rw [dictLookup_append]
          have hb : dictLookup base k = none :=
            hfresh k (by simp [dictKeys]; right; simpa [dictKeys] using hk)
          have hone : dictLookup [kv] k = none := by
            have : kv.1 ≠ k := fun hc => hhead (hc ▸ hk)
            simp [dictLookup, this]
          simp [hb, hone]
        have hv2 : ∀ kv2 ∈ rest, validCfg kv2.2 := by
          intro kv2 hkv2
          exact hv3 kv2 (List.mem_cons_of_mem _ hkv2)
        simp only [List.map_cons, List.foldl_cons, hok, hstep]
        rw [ih (base ++ [kv]) hfresh2 hndr hv2]
        simp
  have := haux data [] (by intro k _; rfl) hnd hv
  simpa using this

lemma StoreInv_runOp (jdump : JValue → String) (s : StoreState)
    (op : StoreOp) (h : StoreInv jdump s) :
    StoreInv jdump (runOp jdump s op) := by
  obtain ⟨hnd, hv, hdisk⟩ := h
  have hins : ∀ (k : String) (c : TransparencyConfig), validCfg c →
      StoreInv jdump ⟨dictInsert s.data k c,
        flushDisk jdump s.disk (dictInsert s.data k c)⟩ := by
    intro k c hc
    refine ⟨keysUnique_insert _ _ _ hnd, ?_, Or.inl rfl⟩
    intro kv hkv
    rcases mem_dictInsert _ _ _ _ hkv with h2 | h2
    · rw [h2]; exact hc
    · exact hv kv h2
  cases op with
  | setDefault k a =>
      by_cases h1 : validate_key (.jstr k) = true
      · by_cases h2 : is_valid_alpha (.jint a) = true
        · have ha : 0 ≤ a ∧ a ≤ 255 := (is_valid_alpha_jint a).mp h2
          rcases hdl : dictLookup s.data k with _ | c
          · have : runOp jdump s (.setDefault k a)
                = ⟨dictInsert s.data k ⟨a, a, false⟩,
                    flushDisk jdump s.disk
                      (dictInsert s.data k ⟨a, a, false⟩)⟩ := by
              simp [runOp, set_default_alpha, h1, h2, keyStr, jvalInt, hdl]
            rw [this]
            exact hins k ⟨a, a, false⟩ ⟨ha.1, ha.2, ha.1, ha.2⟩
          · have hcv : validCfg c := hv (k, c) (dictLookup_mem _ _ _ hdl)
            by_cases hh : is_valid_alpha_int c.hover_alpha = true
            · have : runOp jdump s (.setDefault k a)
                  = ⟨dictInsert s.data k ⟨a, c.hover_alpha, c.hover_enabled⟩,
                      flushDisk jdump s.disk
                        (dictInsert s.data k
                          ⟨a, c.hover_alpha, c.hover_enabled⟩)⟩ := by
                simp [runOp, set_default_alpha, h1, h2, keyStr, jvalInt,
                  hdl, hh]
              rw [this]
              exact hins k _ ⟨ha.1, ha.2, hcv.2.2.1, hcv.2.2.2⟩
            · have : runOp jdump s (.setDefault k a)
                  = ⟨dictInsert s.data k ⟨a, a, c.hover_enabled⟩,
                      flushDisk jdump s.disk
                        (dictInsert s.data k ⟨a, a, c.hover_enabled⟩)⟩ := by
                simp [runOp, set_default_alpha, h1, h2, keyStr, jvalInt,
                  hdl, hh]
              rw [this]
              exact hins k _ ⟨ha.1, ha.2, ha.1, ha.2⟩
        · have : runOp jdump s (.setDefault k a) = s := by
            simp [runOp, set_default_alpha, h1, h2]
          rw [this]
          exact ⟨hnd, hv, hdisk⟩
      · have : runOp jdump s (.setDefault k a) = s := by
          simp [runOp, set_default_alpha, h1]
        rw [this]
        exact ⟨hnd, hv, hdisk⟩
  | setHover k a =>
      by_cases h1 : validate_key (.jstr k) = true
      · by_cases h2 : is_valid_alpha (.jint a) = true
        · have ha : 0 ≤ a ∧ a ≤ 255 := (is_valid_alpha_jint a).mp h2
          rcases hdl : dictLookup s.data k with _ | c
          · have : runOp jdump s (.setHover k a)
                = ⟨dictInsert s.data k ⟨a, a, true⟩,
                    flushDisk jdump s.disk
                      (dictInsert s.data k ⟨a, a, true⟩)⟩ := by
              simp [runOp, set_hover_alpha, h1, h2, keyStr, jvalInt, hdl]
            rw [this]
            exact hins k ⟨a, a, true⟩ ⟨ha.1, ha.2, ha.1, ha.2⟩
          · have hcv : validCfg c := hv (k, c) (dictLookup_mem _ _ _ hdl)
            have : runOp jdump s (.setHover k a)
                = ⟨dictInsert s.data k
                    ⟨c.default_alpha, a, c.hover_enabled⟩,
                    flushDisk jdump s.disk
                      (dictInsert s.data k
                        ⟨c.default_alpha, a, c.hover_enabled⟩)⟩ := by
              simp [runOp, set_hover_alpha, h1, h2, keyStr, jvalInt, hdl]
            rw [this]
            exact hins k _ ⟨hcv.1, hcv.2.1, ha.1, ha.2⟩
        · have : runOp jdump s (.setHover k a) = s := by
            simp [runOp, set_hover_alpha, h1, h2]
          rw [this]
          exact ⟨hnd, hv, hdisk⟩
      · have : runOp jdump s (.setHover k a) = s := by
          simp [runOp, set_hover_alpha, h1]
        rw [this]
        exact ⟨hnd, hv, hdisk⟩
  | setEnabled k b =>
      by_cases h1 : validate_key (.jstr k) = true
      · rcases hdl : dictLookup s.data k with _ | c
        · have : runOp jdump s (.setEnabled k b)
              = ⟨dictInsert s.data k ⟨255, 255, b⟩,
                  flushDisk jdump s.disk
                    (dictInsert s.data k ⟨255, 255, b⟩)⟩ := by
            simp [runOp, set_hover_enabled, h1, keyStr, hdl]
          rw [this]
          refine hins k ⟨255, 255, b⟩ ?_
          refine ⟨by norm_num, by norm_num, by norm_num, by norm_num⟩
        · have hcv : validCfg c := hv (k, c) (dictLookup_mem _ _ _ hdl)
          have : runOp jdump s (.setEnabled k b)
              = ⟨dictInsert s.data k
                  ⟨c.default_alpha, c.hover_alpha, b⟩,
                  flushDisk jdump s.disk
                    (dictInsert s.data k
                      ⟨c.default_alpha, c.hover_alpha, b⟩)⟩ := by
            simp [runOp, set_hover_enabled, h1, keyStr, hdl]
          rw [this]
          exact hins k _ ⟨hcv.1, hcv.2.1, hcv.2.2.1, hcv.2.2.2⟩
      · have : runOp jdump s (.setEnabled k b) = s := by
          simp [runOp, set_hover_enabled, h1]
        rw [this]
        exact ⟨hnd, hv, hdisk⟩
  | removeKey k =>
      by_cases h1 : dictMem s.data k = true
      · have : runOp jdump s (.removeKey k)
            = ⟨dictErase s.data k,
                flushDisk jdump s.disk (dictErase s.data k)⟩ := by
          simp [runOp, store_remove, h1]
        rw [this]
        refine ⟨keysUnique_erase _ _ hnd, ?_, Or.inl rfl⟩
        intro kv hkv
        exact hv kv (mem_dictErase _ _ _ hkv)
      · have : runOp jdump s (.removeKey k) = s := by
          simp [runOp, store_remove, h1]
        rw [this]
        exact ⟨hnd, hv, hdisk⟩

lemma StoreInv_runOps (jdump : JValue → String) (s : StoreState)
    (ops : List StoreOp) (h : StoreInv jdump s) :
    StoreInv jdump (runOps jdump s ops) := by
  induction ops generalizing s with
  | nil => simpa [runOps] using h
  | cons op rest ih =>
      have h1 := StoreInv_runOp jdump s op h
      simpa [runOps] using ih (runOp jdump s op) h1

lemma StoreInv_init (jdump : JValue → String) :
    StoreInv jdump initStore := by
  refine ⟨List.nodup_nil, ?_, Or.inr ⟨rfl, rfl⟩⟩
  intro kv hkv
  exact absurd hkv (List.not_mem_nil kv)

lemma mkStore_of_inv (jparse : String → Option JValue)
    (jdump : JValue → String) (rOk : Bool) (s : StoreState)
    (hinv : StoreInv jdump s)
    (hpd : jparse (jdump (serializeStore s.data))
      = some (serializeStore s.data))
    (hnb : pyStripIsEmpty (jdump (serializeStore s.data)) = false) :
    mkStore jparse jdump rOk s.disk = ⟨s.data, s.disk⟩ := by
  obtain ⟨hnd, hv, hdisk⟩ := hinv
  rcases hdisk with hmain | ⟨hdata, hmain⟩
  · have hload : loadFile jparse jdump rOk s.disk = (s.disk, s.data) := by
      unfold loadFile
      rw [hmain]
      simp only [hnb, Bool.false_eq_true, if_false]
      have hpd2 : jparse (jdump (serializeStore s.data))
          = some (JValue.jobj (s.data.map fun kv => (kv.1, to_payload kv.2))) := by
        rw [hpd]; rfl
      rw [hpd2]
      dsimp only
      rw [parseEntries_roundtrip s.data hnd hv]
    unfold mkStore
    rw [hload]
  · have hload : loadFile jparse jdump rOk s.disk = (s.disk, []) := by
      unfold loadFile
      rw [hmain]
    unfold mkStore
    rw [hload, hdata]

lemma pyIntOf_eq_jvalInt (w : JValue) (n : Int)
    (h : pyIntOf w = some n) : jvalInt w = n := by
  cases w <;> simp_all [pyIntOf, jvalInt]

lemma dictLookup_of_mem_nodup {κ α : Type} [DecidableEq κ]
    (d : List (κ × α)) (kv : κ × α) (hmem : kv ∈ d)
    (hnd : keysUnique d) : dictLookup d kv.1 = some kv.2 := by
  induction d with
  | nil => simp at hmem
  | cons kv2 rest ih =>
      have hhead : kv2.1 ∉ dictKeys rest := by
        have := hnd
        simp only [keysUnique, dictKeys, List.map_cons,
          List.nodup_cons] at this
        exact this.1
      have hndr : keysUnique rest := by
        have := hnd
        simp only [keysUnique, dictKeys, List.map_cons,
          List.nodup_cons] at this
        exact this.2
      rcases List.mem_cons.mp hmem with h1 | h1
      · subst h1
        simp [dictLookup]
      · have hne : kv2.1 ≠ kv.1 := by
          intro hc
          apply hhead
          rw [hc]
          exact List.mem_map.mpr ⟨kv, h1, rfl⟩
        simp only [dictLookup, if_neg hne]
        exact ih h1 hndr

lemma all_h_go (s : StoreH) :
    ∀ (l : List (String × Nat)),
      (∀ kv ∈ l, kv.2 < s.heap.next
        ∧ dictLookup s.data kv.1 = some kv.2) →
    ∀ (acc : StoreH × List (String × Nat)),
      acc.1.data = s.data →
      s.heap.next ≤ acc.1.heap.next →
      (∀ r, r < s.heap.next → heapRead acc.1.heap r = heapRead s.heap r) →
      (∀ p ∈ acc.2, s.heap.next ≤ p.2 ∧ p.2 < acc.1.heap.next
        ∧ heapRead acc.1.heap p.2 = storedVal s p.1) →
      (l.foldl
        (fun acc kv =>
          match heapRead acc.1.heap kv.2 with
          | none => acc
          | some c =>
              let ar := heapAlloc acc.1.heap c
              ({ acc.1 with heap := ar.1 }, acc.2 ++ [(kv.1, ar.2)]))
        acc).1.data = s.data
      ∧ s.heap.next ≤ (l.foldl
          (fun acc kv =>
            match heapRead acc.1.heap kv.2 with
            | none => acc
            | some c =>
                let ar := heapAlloc acc.1.heap c
                ({ acc.1 with heap := ar.1 }, acc.2 ++ [(kv.1, ar.2)]))
          acc).1.heap.next
      ∧ (∀ r, r < s.heap.next →
          heapRead (l.foldl
            (fun acc kv =>
              match heapRead acc.1.heap kv.2 with
              | none => acc
              | some c =>
                  let ar := heapAlloc acc.1.heap c
                  ({ acc.1 with heap := ar.1 }, acc.2 ++ [(kv.1, ar.2)]))
            acc).1.heap r = heapRead s.heap r)
      ∧ (∀ p ∈ (l.foldl
            (fun acc kv =>
              match heapRead acc.1.heap kv.2 with
              | none => acc
              | some c =>
                  let ar := heapAlloc acc.1.heap c
                  ({ acc.1 with heap := ar.1 }, acc.2 ++ [(kv.1, ar.2)]))
            acc).2,
          s.heap.next ≤ p.2
          ∧ p.2 < (l.foldl
              (fun acc kv =>
                match heapRead acc.1.heap kv.2 with
                | none => acc
                | some c =>
                    let ar := heapAlloc acc.1.heap c
                    ({ acc.1 with heap := ar.1 }, acc.2 ++ [(kv.1, ar.2)]))
              acc).1.heap.next
          ∧ heapRead (l.foldl
              (fun acc kv =>
                match heapRead acc.1.heap kv.2 with
                | none => acc
                | some c =>
                    let ar := heapAlloc acc.1.heap c
                    ({ acc.1 with heap := ar.1 }, acc.2 ++ [(kv.1, ar.2)]))
              acc).1.heap p.2 = storedVal s p.1) := by
  intro l
  induction l with
  | nil =>
      intro _ acc h1 h2 h3 h4
      exact ⟨h1, h2, h3, h4⟩
  | cons kv rest ih =>
      intro hl acc h1 h2 h3 h4
      have hkv := hl kv (by simp)
      have hread : heapRead acc.1.heap kv.2 = heapRead s.heap kv.2 :=
        h3 kv.2 hkv.1
      rcases hc : heapRead s.heap kv.2 with _ | c
      · have hstep : (match heapRead acc.1.heap kv.2 with
            | none => acc
            | some c =>
                let ar := heapAlloc acc.1.heap c
                ({ acc.1 with heap := ar.1 }, acc.2 ++ [(kv.1, ar.2)]))
              = acc := by
          rw [hread, hc]
        simp only [List.foldl_cons, hstep]
        exact ih (fun kv2 hkv2 => hl kv2 (List.mem_cons_of_mem _ hkv2))
          acc h1 h2 h3 h4
      · have hsv : storedVal s kv.1 = some c := by
          unfold storedVal
          rw [hkv.2]
          exact hc
        have hstep : (match heapRead acc.1.heap kv.2 with
            | none => acc
            | some c2 =>
                let ar := heapAlloc acc.1.heap c2
                ({ acc.1 with heap := ar.1 }, acc.2 ++ [(kv.1, ar.2)]))
              = ({ acc.1 with heap := (heapAlloc acc.1.heap c).1 },
                  acc.2 ++ [(kv.1, acc.1.heap.next)]) := by
          rw [hread, hc]
          rfl
        simp only [List.foldl_cons, hstep]
        apply ih (fun kv2 hkv2 => hl kv2 (List.mem_cons_of_mem _ hkv2))
        · exact h1
        · simp only [heapAlloc]
          omega
        · intro r hr
          have hne : r ≠ acc.1.heap.next := by omega
          simp only [heapAlloc, heapRead]
          rw [dictLookup_insert_ne _ _ _ _ (Ne.symm hne)]
          exact h3 r hr
        · intro p hp
          rcases List.mem_append.mp hp with hp1 | hp1
          · have := h4 p hp1
            refine ⟨this.1, by simp only [heapAlloc]; omega, ?_⟩
            have hne : p.2 ≠ acc.1.heap.next := by omega
            simp only [heapAlloc, heapRead]
            rw [dictLookup_insert_ne _ _ _ _ (Ne.symm hne)]
            exact this.2.2
          · simp only [List.mem_singleton] at hp1
            subst hp1
            refine ⟨h2, by simp only [heapAlloc]; omega, ?_⟩
            simp only [heapAlloc, heapRead]
            rw [dictLookup_insert_self]
            exact hsv.symm

/-
Claim theorems.
-/

/-- C10: when the settings file exists but its contents are empty or
whitespace-only, construction yields an empty mapping and leaves the
disk exactly as it was — no ".bak" rename, no rewrite of the main
file — unlike the corrupt-file recovery branch. -/
theorem C10_blank_file_load (jparse : String → Option JValue)
    (jdump : JValue → String) (rOk : Bool) (b : Option String)
    (raw : String) (h : pyStripIsEmpty raw = true) :
    loadFile jparse jdump rOk ⟨some raw, b⟩ = (⟨some raw, b⟩, []) := by
  unfold loadFile
  simp [h]

/-- Witness for C10 at a file body of a space, a no-break space and an
ideographic space — whitespace-only in Python's Unicode sense. -/
theorem C10_blank_file_load_witness :
    loadFile decodeJ encodeJ true ⟨some " \u00A0\u3000", none⟩
      = (⟨some " \u00A0\u3000", none⟩, []) :=
  C10_blank_file_load decodeJ encodeJ true none " \u00A0\u3000" (by decide)

/-- C9: `remove` on an absent key is a no-op touching neither the
mapping nor the disk; on a present key it deletes the entry and
flushes, after which `get_config` returns `None`. -/
theorem C9_remove (jdump : JValue → String) (s : StoreState) (k : String)
    (hnd : keysUnique s.data) :
    (dictLookup s.data k = none → store_remove jdump s k = s)
    ∧ (∀ c, dictLookup s.data k = some c →
        store_remove jdump s k
          = ⟨dictErase s.data k, flushDisk jdump s.disk (dictErase s.data k)⟩
        ∧ get_config (store_remove jdump s k) k = none) := by
  constructor
  · intro h
    simp [store_remove, dictMem, h]
  · intro c h
    have hm : dictMem s.data k = true := by simp [dictMem, h]
    refine ⟨by simp [store_remove, hm], ?_⟩
    simp [store_remove, hm, get_config,
      dictLookup_erase_of_nodup _ _ hnd]

/-- Witness for C9: removing the only stored key empties the store and
flushes; the removed key then reads back as absent. -/
theorem C9_remove_witness :
    store_remove encodeJ
        ⟨[("a", ⟨1, 2, false⟩)], ⟨none, none⟩⟩ "a"
      = ⟨[], flushDisk encodeJ ⟨none, none⟩ []⟩
    ∧ get_config
        (store_remove encodeJ ⟨[("a", ⟨1, 2, false⟩)], ⟨none, none⟩⟩ "a")
        "a" = none := by
  have h := (C9_remove encodeJ ⟨[("a", ⟨1, 2, false⟩)], ⟨none, none⟩⟩ "a"
    (by simp [keysUnique, dictKeys])).2 ⟨1, 2, false⟩ rfl
  exact ⟨h.1, h.2⟩

/-- C2: a settings file that is present, not whitespace-only, and
either unparsable or with a non-object top level, is treated as wholly
corrupt: the original contents move to the ".bak" slot (a rename
failure being swallowed), the mapping resets to empty, and the empty
mapping is immediately persisted to the main slot; a store constructed
over the resulting disk then loads empty and clean. -/
theorem C2_corrupt_recovery (jparse : String → Option JValue)
    (jdump : JValue → String) (rOk rOk2 : Bool) (b : Option String)
    (raw : String)
    (hraw : pyStripIsEmpty raw = false)
    (hbad : ∀ l, jparse raw ≠ some (.jobj l))
    (hrt : jparse (jdump (serializeStore []))
      = some (serializeStore [])) :
    loadFile jparse jdump rOk ⟨some raw, b⟩
      = (⟨some (jdump (serializeStore [])),
          if rOk then some raw else b⟩, [])
    ∧ mkStore jparse jdump rOk2
        ⟨some (jdump (serializeStore [])), if rOk then some raw else b⟩
      = ⟨[], ⟨some (jdump (serializeStore [])),
          if rOk then some raw else b⟩⟩ := by
  constructor
  · unfold loadFile
    simp only [hraw, Bool.false_eq_true, if_false]
    rcases hp : jparse raw with _ | v
    · cases rOk <;> simp [corruptRecover, flushDisk]
    · cases v with
      | jobj l => exact absurd hp (hbad l)
      | jnull => cases rOk <;> simp [corruptRecover, flushDisk]
      | jbool b2 => cases rOk <;> simp [corruptRecover, flushDisk]
      | jint n => cases rOk <;> simp [corruptRecover, flushDisk]
      | jstr s2 => cases rOk <;> simp [corruptRecover, flushDisk]
      | jarr xs => cases rOk <;> simp [corruptRecover, flushDisk]
  · by_cases hblank : pyStripIsEmpty (jdump (serializeStore [])) = true
    · unfold mkStore loadFile
      simp [hblank]
    · unfold mkStore loadFile
      simp only [Bool.not_eq_true] at hblank
      simp only [hblank, Bool.false_eq_true, if_false]
      have hrt2 : jparse (jdump (serializeStore []))
          = some (JValue.jobj []) := by
        rw [hrt]; rfl
      rw [hrt2]
      dsimp only
      simp [parseEntries, pyDictOfObj]

/-- Witness for C2 over the unparsable body "x". -/
theorem C2_corrupt_recovery_witness :
    loadFile decodeJ encodeJ true ⟨some "x", none⟩
      = (⟨some (encodeJ (serializeStore [])), some "x"⟩, [])
    ∧ mkStore decodeJ encodeJ false
        ⟨some (encodeJ (serializeStore [])), some "x"⟩
      = ⟨[], ⟨some (encodeJ (serializeStore [])), some "x"⟩⟩ := by
  have h := C2_corrupt_recovery decodeJ encodeJ true false none "x"
    (by decide)
    (by
      intro l hc
      rw [show decodeJ "x" = none from rfl] at hc
      exact Option.noConfusion hc)
    (by rfl)
  exact ⟨h.1, h.2⟩

/-- C3 counterexample: on an absent key, `set_default_alpha(k, 100)`
creates `(100, 100, false)` — the hover alpha mirrors the argument, not
255 — and `set_hover_alpha(k, 100)` creates `(100, 100, true)` — hover
enabled, neither field 255 — contradicting the claimed
`(255, 255, false)` base configuration mutated in one field. -/
theorem C3_counterexample :
    (set_default_alpha encodeJ initStore (.jstr "w") (.jint 100)).1.data
      = [("w", ⟨100, 100, false⟩)]
    ∧ get_config
        (set_default_alpha encodeJ initStore (.jstr "w") (.jint 100)).1 "w"
        ≠ some ⟨100, 255, false⟩
    ∧ (set_hover_alpha encodeJ initStore (.jstr "w") (.jint 100)).1.data
      = [("w", ⟨100, 100, true⟩)]
    ∧ get_config
        (set_hover_alpha encodeJ initStore (.jstr "w") (.jint 100)).1 "w"
        ≠ some ⟨255, 100, false⟩ := by
  refine ⟨rfl, by decide, rfl, by decide⟩

/-- C3 amended: on an absent key, `set_default_alpha(k, a)` stores
`(a, a, false)`, `set_hover_alpha(k, a)` stores `(a, a, true)`, and
`set_hover_enabled(k, e)` stores the default `(255, 255, e)`; each call
touches only that key. -/
theorem C3_amended (jdump : JValue → String) (s : StoreState)
    (k : String) (a : Int) (e : Bool)
    (hk : k ≠ "") (ha : 0 ≤ a ∧ a ≤ 255)
    (habs : dictLookup s.data k = none) :
    (set_default_alpha jdump s (.jstr k) (.jint a)).1.data
      = dictInsert s.data k ⟨a, a, false⟩
    ∧ get_config (set_default_alpha jdump s (.jstr k) (.jint a)).1 k
        = some ⟨a, a, false⟩
    ∧ (set_hover_alpha jdump s (.jstr k) (.jint a)).1.data
      = dictInsert s.data k ⟨a, a, true⟩
    ∧ get_config (set_hover_alpha jdump s (.jstr k) (.jint a)).1 k
        = some ⟨a, a, true⟩
    ∧ (set_hover_enabled jdump s (.jstr k) (.jbool e)).1.data
      = dictInsert s.data k ⟨255, 255, e⟩
    ∧ get_config (set_hover_enabled jdump s (.jstr k) (.jbool e)).1 k
        = some ⟨255, 255, e⟩ := by
  have hvk : validate_key (.jstr k) = true := by simp [validate_key, hk]
  have hva : is_valid_alpha (.jint a) = true := (is_valid_alpha_jint a).mpr ha
  refine ⟨?_, ?_, ?_, ?_, ?_, ?_⟩ <;>
    simp [set_default_alpha, set_hover_alpha, set_hover_enabled, hvk, hva,
      keyStr, jvalInt, habs, get_config, dictLookup_insert_self,
      TransparencyConfig.clone]

/-- Witness for the amended C3 at key "w", alpha 7, enabled true. -/
theorem C3_amended_witness :
    (set_default_alpha encodeJ initStore (.jstr "w") (.jint 7)).1.data
      = dictInsert initStore.data "w" ⟨7, 7, false⟩
    ∧ get_config (set_default_alpha encodeJ initStore (.jstr "w") (.jint 7)).1 "w"
        = some ⟨7, 7, false⟩
    ∧ (set_hover_alpha encodeJ initStore (.jstr "w") (.jint 7)).1.data
      = dictInsert initStore.data "w" ⟨7, 7, true⟩
    ∧ get_config (set_hover_alpha encodeJ initStore (.jstr "w") (.jint 7)).1 "w"
        = some ⟨7, 7, true⟩
    ∧ (set_hover_enabled encodeJ initStore (.jstr "w") (.jbool true)).1.data
      = dictInsert initStore.data "w" ⟨255, 255, true⟩
    ∧ get_config (set_hover_enabled encodeJ initStore (.jstr "w") (.jbool true)).1 "w"
        = some ⟨255, 255, true⟩ :=
  C3_amended encodeJ initStore "w" 7 true (by decide) (by decide) rfl

/-- C6 counterexample: a class name containing the separator is
interpolated verbatim, so the derived key differs from the claimed
fully-escaped form and the separator does arise from field content. -/
theorem C6_counterexample :
    identity_key ⟨0, "t", "a|b", 0, none⟩ = "UNKNOWN|a|b|t"
    ∧ identity_key_claim ⟨0, "t", "a|b", 0, none⟩ = "UNKNOWN|a/b|t"
    ∧ identity_key ⟨0, "t", "a|b", 0, none⟩
        ≠ identity_key_claim ⟨0, "t", "a|b", 0, none⟩ := by
  refine ⟨rfl, rfl, by decide⟩

/-- C6 amended: the identity key is deterministic — it depends only on
the executable path, class name and title, never on the transient
handle or pid — and equals the path (or "UNKNOWN") and title (or
"UNTITLED") with every separator replaced by "/", joined around the
verbatim class name; the escaped fields cannot contribute a separator,
the class name can. -/
theorem C6_amended :
    (∀ w1 w2 : WindowInfo, w1.process_path = w2.process_path →
      w1.class_name = w2.class_name → w1.title = w2.title →
      identity_key w1 = identity_key w2)
    ∧ (∀ w : WindowInfo, identity_key w
        = replaceBar (optStrOr w.process_path "UNKNOWN") ++ "|"
          ++ w.class_name ++ "|" ++ replaceBar (strOr w.title "UNTITLED"))
    ∧ (∀ s : String, Char.ofNat 124 ∉ (replaceBar s).toList) := by
  refine ⟨?_, fun w => rfl, ?_⟩
  · intro w1 w2 h1 h2 h3
    simp [identity_key, h1, h2, h3]
  · intro s hc
    have h1 : (replaceBar s).toList
        = s.toList.map fun c => if c = Char.ofNat 124 then Char.ofNat 47 else c := rfl
    rw [h1] at hc
    rcases List.mem_map.mp hc with ⟨c, _, hc2⟩
    by_cases h2 : c = Char.ofNat 124
    · simp [h2] at hc2
    · simp [h2] at hc2

/-- Witness for the amended C6: two windows agreeing on path, class and
title but with different handles and pids share one key. -/
theorem C6_amended_witness :
    identity_key ⟨1, "t", "c", 2, some "p"⟩
      = identity_key ⟨9, "t", "c", 7, some "p"⟩ :=
  C6_amended.1 ⟨1, "t", "c", 2, some "p"⟩ ⟨9, "t", "c", 7, some "p"⟩
    rfl rfl rfl

/-- C4 counterexample: a bare boolean payload — a JSON shape that is
neither an integer literal nor a record — does not fail: Python's
`isinstance(True, int)` holds, so `from_payload(True)` succeeds with
the configuration (1, 1, false). -/
theorem C4_counterexample :
    from_payload (.jbool true) = .ok ⟨1, 1, false⟩ := rfl

/-- C4 amended: the validate/coerce function agrees everywhere with the
spec-level description once booleans are admitted as the integers 0 and
1 (Python bool is a subclass of int) and the record's hoverEnabled is
read by truthiness: bare in-range ints map to the legacy shorthand,
records take defaultAlpha from default_alpha or the alias alpha
(required, in-range), hoverAlpha falls back to defaultAlpha when
missing or invalid, and every other shape or out-of-range default
fails. -/
theorem C4_amended (v : JValue) : from_payload v = from_payload_spec v := by
  have hcand : ∀ (l : List (String × JValue)) (w : JValue),
      (if is_valid_alpha w = true then
        (Except.ok
          (TransparencyConfig.mk (jvalInt w)
            (if is_valid_alpha
                ((dictLookup (pyDictOfObj l) "hover_alpha").getD
                  (.jint (jvalInt w))) = true
             then jvalInt ((dictLookup (pyDictOfObj l) "hover_alpha").getD
                  (.jint (jvalInt w)))
             else jvalInt w)
            (truthy ((dictLookup (pyDictOfObj l) "hover_enabled").getD
              (.jbool false))))
          : Except String TransparencyConfig)
       else Except.error "default_alpha is invalid")
      = (match pyIntOf w with
         | some n =>
             if 0 ≤ n ∧ n ≤ 255 then
               Except.ok (TransparencyConfig.mk n
                 (match (dictLookup (pyDictOfObj l) "hover_alpha").map pyIntOf with
                  | some (some m) => if 0 ≤ m ∧ m ≤ 255 then m else n
                  | some none => n
                  | none => n)
                 (match dictLookup (pyDictOfObj l) "hover_enabled" with
                  | some w2 => truthy w2
                  | none => false))
             else Except.error "default_alpha is invalid"
         | none => Except.error "default_alpha is invalid") := by
    intro l w
    by_cases hv : is_valid_alpha w = true
    · obtain ⟨n, hpy, hr⟩ := (is_valid_alpha_exists w).mp hv
      have hj : jvalInt w = n := pyIntOf_eq_jvalInt w n hpy
      rw [if_pos hv, hpy, hj]
      simp only [hr, and_self, if_pos]
      have hhov : (if is_valid_alpha
            ((dictLookup (pyDictOfObj l) "hover_alpha").getD (.jint n)) = true
          then jvalInt ((dictLookup (pyDictOfObj l) "hover_alpha").getD
            (.jint n))
          else n)
          = (match (dictLookup (pyDictOfObj l) "hover_alpha").map pyIntOf with
             | some (some m) => if 0 ≤ m ∧ m ≤ 255 then m else n
             | some none => n
             | none => n) := by
        rcases hh : dictLookup (pyDictOfObj l) "hover_alpha" with _ | w2
        · simp only [Option.getD_none, Option.map_none]
          rw [if_pos ((is_valid_alpha_jint n).mpr hr)]
          exact (pyIntOf_eq_jvalInt _ n rfl)
        · simp only [Option.getD_some, Option.map_some']
          by_cases hv2 : is_valid_alpha w2 = true
          · obtain ⟨m, hpy2, hr2⟩ := (is_valid_alpha_exists w2).mp hv2
            have hj2 : jvalInt w2 = m := pyIntOf_eq_jvalInt w2 m hpy2
            rw [if_pos hv2, hpy2, hj2]
            simp [hr2]
          · rw [if_neg hv2]
            rcases hm : pyIntOf w2 with _ | m
            · rfl
            · have : ¬ (0 ≤ m ∧ m ≤ 255) := by
                intro hc
                exact hv2 ((is_valid_alpha_exists w2).mpr ⟨m, hm, hc⟩)
              simp [this]
      have hen : truthy ((dictLookup (pyDictOfObj l) "hover_enabled").getD
            (.jbool false))
          = (match dictLookup (pyDictOfObj l) "hover_enabled" with
             | some w2 => truthy w2
             | none => false) := by
        rcases he : dictLookup (pyDictOfObj l) "hover_enabled" with _ | w3
        · rfl
        · rfl
      rw [hhov, hen]
    · rw [if_neg hv]
      rcases hm : pyIntOf w with _ | n
      · rfl
      · have : ¬ (0 ≤ n ∧ n ≤ 255) := by
          intro hc
          exact hv ((is_valid_alpha_exists w).mpr ⟨n, hm, hc⟩)
        simp [this]
  cases v with
  | jnull => rfl
  | jbool b => cases b <;> rfl
  | jstr s => rfl
  | jarr xs => rfl
  | jint n =>
      by_cases h : (0 : Int) ≤ n ∧ n ≤ 255
      · have hv := (is_valid_alpha_jint n).mpr h
        simp [from_payload, from_payload_spec, isinstance_int, hv,
          jvalInt, h]
      · have hv : is_valid_alpha (.jint n) = false := by
          rcases hx : is_valid_alpha (.jint n) with _ | _
          · rfl
          · exact absurd ((is_valid_alpha_jint n).mp hx) h
        simp [from_payload, from_payload_spec, isinstance_int, hv,
          jvalInt, h]
  | jobj l =>
      have hii : isinstance_int (JValue.jobj l) = false := rfl
      simp only [from_payload, from_payload_spec, hii,
        Bool.false_eq_true, if_false]
      rcases hd : dictLookup (pyDictOfObj l) "default_alpha" with _ | w
      · rcases ha : dictLookup (pyDictOfObj l) "alpha" with _ | w
        · simp only [hd, ha, Option.getD_none]
          rfl
        · simp only [hd, ha, Option.getD_some]
          exact hcand l w
      · simp only [hd]
        exact hcand l w

/-- C5: both alpha setters raise a ValueError for every argument that
is not a Python integer in [0, 255] (booleans counting as 0/1);
`set_hover_enabled` raises for every non-boolean enabled flag and all
three raise for an empty or non-string key; every such failing call
returns with the in-memory mapping and the disk exactly as they were. -/
theorem C5_validation (jdump : JValue → String) (s : StoreState)
    (k a e : JValue) :
    ((∀ n : Int, pyIntOf a = some n → ¬(0 ≤ n ∧ n ≤ 255)) →
      ((set_default_alpha jdump s k a).1 = s
        ∧ (set_default_alpha jdump s k a).2.isSome = true)
      ∧ ((set_hover_alpha jdump s k a).1 = s
        ∧ (set_hover_alpha jdump s k a).2.isSome = true))
    ∧ ((∀ b : Bool, e ≠ .jbool b) →
        (set_hover_enabled jdump s k e).1 = s
        ∧ (set_hover_enabled jdump s k e).2.isSome = true)
    ∧ ((∀ str : String, k = .jstr str → str = "") →
        ((set_default_alpha jdump s k a).1 = s
          ∧ (set_default_alpha jdump s k a).2.isSome = true)
        ∧ ((set_hover_alpha jdump s k a).1 = s
          ∧ (set_hover_alpha jdump s k a).2.isSome = true)
        ∧ ((set_hover_enabled jdump s k e).1 = s
          ∧ (set_hover_enabled jdump s k e).2.isSome = true)) := by
  refine ⟨?_, ?_, ?_⟩
  · intro hbad
    have hva : is_valid_alpha a = false := by
      rcases hx : is_valid_alpha a with _ | _
      · rfl
      · obtain ⟨n, h1, h2⟩ := (is_valid_alpha_exists a).mp hx
        exact absurd h2 (hbad n h1)
    by_cases hk : validate_key k = true
    · constructor <;> constructor <;>
        simp [set_default_alpha, set_hover_alpha, hk, hva]
    · constructor <;> constructor <;>
        simp [set_default_alpha, set_hover_alpha, hk]
  · intro hbool
    by_cases hk : validate_key k = true
    · cases e with
      | jbool b => exact absurd rfl (hbool b)
      | jnull => constructor <;> simp [set_hover_enabled, hk]
      | jint n => constructor <;> simp [set_hover_enabled, hk]
      | jstr s2 => constructor <;> simp [set_hover_enabled, hk]
      | jarr xs => constructor <;> simp [set_hover_enabled, hk]
      | jobj l => constructor <;> simp [set_hover_enabled, hk]
    · constructor <;> simp [set_hover_enabled, hk]
  · intro hkey
    have hkf : ¬ validate_key k = true := by
      cases k with
      | jstr str =>
          have : str = "" := hkey str rfl
          simp [validate_key, this]
      | jnull => simp [validate_key]
      | jbool b => simp [validate_key]
      | jint n => simp [validate_key]
      | jarr xs => simp [validate_key]
      | jobj l => simp [validate_key]
    refine ⟨⟨?_, ?_⟩, ⟨?_, ?_⟩, ⟨?_, ?_⟩⟩ <;>
      simp [set_default_alpha, set_hover_alpha, set_hover_enabled, hkf]

/-- Witness for C5: a string alpha, an out-of-range alpha, a null
enabled flag and an empty key each raise and leave the fresh store
untouched. -/
theorem C5_validation_witness :
    (set_default_alpha encodeJ initStore (.jstr "w") (.jstr "bad")).1
      = initStore
    ∧ (set_default_alpha encodeJ initStore (.jstr "w") (.jstr "bad")).2.isSome
      = true
    ∧ (set_hover_alpha encodeJ initStore (.jstr "w") (.jint 300)).1
      = initStore
    ∧ (set_hover_alpha encodeJ initStore (.jstr "w") (.jint 300)).2.isSome
      = true
    ∧ (set_hover_enabled encodeJ initStore (.jstr "w") .jnull).1
      = initStore
    ∧ (set_hover_enabled encodeJ initStore (.jstr "w") .jnull).2.isSome
      = true
    ∧ (set_hover_enabled encodeJ initStore (.jstr "") (.jbool true)).1
      = initStore
    ∧ (set_hover_enabled encodeJ initStore (.jstr "") (.jbool true)).2.isSome
      = true := by
  have h1 := C5_validation encodeJ initStore (.jstr "w") (.jstr "bad") .jnull
  have h2 := C5_validation encodeJ initStore (.jstr "w") (.jint 300) .jnull
  have h3 := C5_validation encodeJ initStore (.jstr "") (.jint 5) (.jbool true)
  have ha1 := h1.1 (by intro n hn; exact Option.noConfusion hn)
  have ha2 := h2.1 (by intro n hn; simp [pyIntOf] at hn; omega)
  have hb := h1.2.1 (by intro b hb; cases hb)
  have hc := (h3.2.2 (by intro str hstr; cases hstr; rfl)).2.2
  exact ⟨ha1.1.1, ha1.1.2, ha2.2.1, ha2.2.2, hb.1, hb.2, hc.1, hc.2⟩

/-- C7: after any sequence of public store operations starting from a
fresh store over a missing file, a store freshly constructed over the
resulting disk holds exactly the same mapping, so every stored
configuration reads back equal; assumes only that the JSON layer
round-trips the serialised document and serialises it to non-blank
text. -/
theorem C7_roundtrip (jparse : String → Option JValue)
    (jdump : JValue → String) (rOk : Bool) (ops : List StoreOp)
    (hpd : jparse (jdump (serializeStore (runOps jdump initStore ops).data))
      = some (serializeStore (runOps jdump initStore ops).data))
    (hnb : pyStripIsEmpty
      (jdump (serializeStore (runOps jdump initStore ops).data)) = false) :
    mkStore jparse jdump rOk (runOps jdump initStore ops).disk
      = ⟨(runOps jdump initStore ops).data,
          (runOps jdump initStore ops).disk⟩
    ∧ ∀ k, get_config
        (mkStore jparse jdump rOk (runOps jdump initStore ops).disk) k
      = get_config (runOps jdump initStore ops) k := by
  have hinv := StoreInv_runOps jdump initStore ops (StoreInv_init jdump)
  have h := mkStore_of_inv jparse jdump rOk _ hinv hpd hnb
  refine ⟨h, fun k => ?_⟩
  rw [h]

/-- Witness for C7: set default 180, hover 240, hover-enabled true on
key "w", then reconstruct over the written file and read "w" back. -/
theorem C7_roundtrip_witness :
    mkStore decodeJ encodeJ true
        (runOps encodeJ initStore
          [.setDefault "w" 180, .setHover "w" 240,
            .setEnabled "w" true]).disk
      = ⟨(runOps encodeJ initStore
            [.setDefault "w" 180, .setHover "w" 240,
              .setEnabled "w" true]).data,
          (runOps encodeJ initStore
            [.setDefault "w" 180, .setHover "w" 240,
              .setEnabled "w" true]).disk⟩
    ∧ get_config
        (mkStore decodeJ encodeJ true
          (runOps encodeJ initStore
            [.setDefault "w" 180, .setHover "w" 240,
              .setEnabled "w" true]).disk) "w"
      = get_config
          (runOps encodeJ initStore
            [.setDefault "w" 180, .setHover "w" 240,
              .setEnabled "w" true]) "w" := by
  have h := C7_roundtrip decodeJ encodeJ true
    [.setDefault "w" 180, .setHover "w" 240, .setEnabled "w" true]
    (by rfl) (by rfl)
  exact ⟨h.1, h.2 "w"⟩

/-- C8: under the heap model, `get_config` and `all` hand out freshly
allocated copies: the copy's contents equal the stored value, and
mutating any returned object (writing any configuration into its cell)
leaves what every later lookup of the store returns unchanged. -/
theorem C8_isolation (s : StoreH) (hwf : s.wf) (hnd : keysUnique s.data) :
    (∀ k, get_config_val s k = storedVal s k)
    ∧ (∀ k s2 r, get_config_h s k = (s2, some r) →
        s2.data = s.data
        ∧ heapRead s2.heap r = storedVal s k
        ∧ ∀ c2 k2, storedVal ⟨s2.data, heapWrite s2.heap r c2⟩ k2
            = storedVal s k2)
    ∧ (∀ s2 out, all_h s = (s2, out) →
        s2.data = s.data
        ∧ (∀ p ∈ out, heapRead s2.heap p.2 = storedVal s p.1)
        ∧ (∀ p ∈ out, ∀ c2 k2,
            storedVal ⟨s2.data, heapWrite s2.heap p.2 c2⟩ k2
              = storedVal s k2)) := by
  refine ⟨?_, ?_, ?_⟩
  · intro k
    unfold get_config_val get_config_h storedVal
    rcases hk : dictLookup s.data k with _ | r0
    · rfl
    · dsimp only
      rcases hr : heapRead s.heap r0 with _ | c
      · simp [Option.some_bind, hr]
      · dsimp only [heapAlloc]
        simp only [heapRead, Option.some_bind] at hr ⊢
        rw [dictLookup_insert_self]
        exact hr.symm
  · intro k s2 r hget
    unfold get_config_h at hget
    rcases hk : dictLookup s.data k with _ | r0 <;> rw [hk] at hget
    · simp at hget
    · dsimp only at hget
      rcases hr : heapRead s.heap r0 with _ | c <;> rw [hr] at hget
      · simp at hget
      · dsimp only at hget
        injection hget with hs2 hrr
        injection hrr with hrr2
        subst hs2
        subst hrr2
        have hr0lt : r0 < s.heap.next := hwf (k, r0) (dictLookup_mem _ _ _ hk)
        refine ⟨rfl, ?_, ?_⟩
        · show heapRead (heapAlloc s.heap c).1 (heapAlloc s.heap c).2
            = storedVal s k
          unfold storedVal
          rw [hk]
          simp only [heapAlloc, heapRead, Option.some_bind]
          rw [dictLookup_insert_self]
          simp only [heapRead] at hr
          exact hr.symm
        · intro c2 k2
          unfold storedVal
          dsimp only
          rcases hk2 : dictLookup s.data k2 with _ | r2
          · rfl
          · have hr2lt : r2 < s.heap.next :=
              hwf (k2, r2) (dictLookup_mem _ _ _ hk2)
            simp only [Option.some_bind, heapWrite, heapRead, heapAlloc]
            rw [dictLookup_insert_ne _ _ _ _
              (show s.heap.next ≠ r2 by omega)]
            rw [dictLookup_insert_ne _ _ _ _
              (show s.heap.next ≠ r2 by omega)]
  · intro s2 out hall
    have hl : ∀ kv ∈ s.data, kv.2 < s.heap.next
        ∧ dictLookup s.data kv.1 = some kv.2 := by
      intro kv hkv
      exact ⟨hwf kv hkv, dictLookup_of_mem_nodup s.data kv hkv hnd⟩
    have hgo := all_h_go s s.data hl (s, []) rfl (Nat.le_refl _)
      (fun r _ => rfl) (by intro p hp; simp at hp)
    obtain ⟨hg1, hg2, hg3, hg4⟩ := hgo
    have hall2 : (s.data.foldl
        (fun acc kv =>
          match heapRead acc.1.heap kv.2 with
          | none => acc
          | some c =>
              let ar := heapAlloc acc.1.heap c
              ({ acc.1 with heap := ar.1 }, acc.2 ++ [(kv.1, ar.2)]))
        ((s, []) : StoreH × List (String × Nat)))
        = (s2, out) := hall
    have hfst := congrArg Prod.fst hall2
    have hsnd := congrArg Prod.snd hall2
    dsimp only at hfst hsnd
    have hdata : s2.data = s.data := by rw [← hfst]; exact hg1
    refine ⟨hdata, ?_, ?_⟩
    · intro p hp
      have := hg4 p (by rw [hsnd]; exact hp)
      rw [← hfst]
      exact this.2.2
    · intro p hp c2 k2
      have hpf := hg4 p (by rw [hsnd]; exact hp)
      unfold storedVal
      dsimp only
      rw [hdata]
      rcases hk2 : dictLookup s.data k2 with _ | r2
      · rfl
      · have hr2lt : r2 < s.heap.next :=
          hwf (k2, r2) (dictLookup_mem _ _ _ hk2)
        simp only [Option.some_bind, heapWrite, heapRead]
        rw [dictLookup_insert_ne _ _ _ _
          (show p.2 ≠ r2 by
            have := hpf.1
            omega)]
        have hpres : heapRead s2.heap r2 = heapRead s.heap r2 := by
          rw [← hfst]
          exact hg3 r2 hr2lt
        simpa [heapRead] using hpres

/-- Witness for C8: a one-entry store; the clone reads back the stored
value and overwriting the clone's cell leaves the stored value
untouched. -/
theorem C8_isolation_witness :
    get_config_val ⟨[("a", 0)], ⟨1, [(0, ⟨10, 20, false⟩)]⟩⟩ "a"
      = some ⟨10, 20, false⟩
    ∧ storedVal
        ⟨[("a", 0)],
          heapWrite ⟨2, [(0, ⟨10, 20, false⟩), (1, ⟨10, 20, false⟩)]⟩ 1
            ⟨0, 0, true⟩⟩ "a"
      = some ⟨10, 20, false⟩ := by
  have h := C8_isolation ⟨[("a", 0)], ⟨1, [(0, ⟨10, 20, false⟩)]⟩⟩
    (by
      intro kv hkv
      simp only [List.mem_singleton] at hkv
      subst hkv
      exact Nat.zero_lt_one)
    (by simp [keysUnique, dictKeys])
  constructor
  · rw [h.1 "a"]
    rfl
  · have h2 := h.2.1 "a"
      ⟨[("a", 0)], ⟨2, [(0, ⟨10, 20, false⟩), (1, ⟨10, 20, false⟩)]⟩⟩ 1 rfl
    have h3 := h2.2.2 ⟨0, 0, true⟩ "a"
    exact h3.trans rfl

/-- C1: for a tick with a non-empty settings snapshot, the loop is the
fold of the per-identity step with the cursor queried only when some
configuration enables hover, and each step behaves exactly as claimed:
an identity with no live window is dropped from the cache and skipped
without a call; otherwise the target alpha is the hover alpha exactly
when hover is enabled and the live handle equals the hover target, and
the default alpha otherwise; a target equal to the cached value makes
no actuator call; otherwise the actuator is called and the cache is
updated on success and left unchanged on failure. -/
theorem C1_reconcile_tick (env : TickEnv)
    (settings : List (String × TransparencyConfig))
    (windows : List WindowInfo) (queriedRoot : Option Nat)
    (cache : List (String × Int))
    (hne : settings ≠ []) :
    (apply_hover_states env settings windows queriedRoot cache
      = settings.foldl
          (hoverStep env (buildWindowMap windows)
            (if settings.any (fun kv => kv.2.hover_enabled) then queriedRoot
             else none))
          ⟨cache, []⟩)
    ∧ (∀ (hro : Option Nat), (∀ h, hro = some h → h ≠ 0) →
        ∀ (acc : TickAcc) (k : String) (cfg : TransparencyConfig),
        (dictLookup (buildWindowMap windows) k = none →
          hoverStep env (buildWindowMap windows) hro acc (k, cfg)
            = { acc with cache := dictErase acc.cache k })
        ∧ (∀ info, dictLookup (buildWindowMap windows) k = some info →
            (if cfg.hover_enabled = true ∧ hro = some info.handle
             then cfg.hover_alpha else cfg.default_alpha)
              = (if cfg.hover_enabled && hoverMatch hro info.handle
                 then cfg.hover_alpha else cfg.default_alpha)
            ∧ ((dictLookup acc.cache k
                = some (if cfg.hover_enabled = true ∧ hro = some info.handle
                        then cfg.hover_alpha else cfg.default_alpha)) →
                hoverStep env (buildWindowMap windows) hro acc (k, cfg)
                  = acc)
            ∧ ((dictLookup acc.cache k
                ≠ some (if cfg.hover_enabled = true ∧ hro = some info.handle
                        then cfg.hover_alpha else cfg.default_alpha)) →
                hoverStep env (buildWindowMap windows) hro acc (k, cfg)
                  = if env.setAlphaOk info.handle
                        (if cfg.hover_enabled = true ∧ hro = some info.handle
                         then cfg.hover_alpha else cfg.default_alpha) = true
                    then ⟨dictInsert acc.cache k
                            (if cfg.hover_enabled = true
                                ∧ hro = some info.handle
                             then cfg.hover_alpha else cfg.default_alpha),
                          acc.calls ++ [(info.handle,
                            (if cfg.hover_enabled = true
                                ∧ hro = some info.handle
                             then cfg.hover_alpha else cfg.default_alpha),
                            true)]⟩
                    else ⟨acc.cache,
                          acc.calls ++ [(info.handle,
                            (if cfg.hover_enabled = true
                                ∧ hro = some info.handle
                             then cfg.hover_alpha else cfg.default_alpha),
                            false)]⟩))) := by
  constructor
  · unfold apply_hover_states
    rw [if_neg (by simpa [List.isEmpty_iff] using hne)]
  · intro hro hnz2 acc k cfg
    have hcondeq : ∀ hdl : Nat,
        (cfg.hover_enabled = true ∧ hro = some hdl)
          ↔ (cfg.hover_enabled && hoverMatch hro hdl) = true := by
      intro hdl
      cases hro with
      | none => simp [hoverMatch]
      | some h =>
          have hz : h ≠ 0 := hnz2 h rfl
          constructor
          · rintro ⟨he, hh⟩
            injection hh with hh2
            subst hh2
            simp [hoverMatch, he, hz]
          · intro hb
            simp only [Bool.and_eq_true] at hb
            obtain ⟨he, hm⟩ := hb
            simp only [hoverMatch, Bool.and_eq_true,
              decide_eq_true_eq] at hm
            exact ⟨he, by rw [hm.2]⟩
    constructor
    · intro hmiss
      unfold hoverStep
      rw [hmiss]
    · intro info hinfo
      have htar : (if cfg.hover_enabled = true ∧ hro = some info.handle
            then cfg.hover_alpha else cfg.default_alpha)
          = (if cfg.hover_enabled && hoverMatch hro info.handle
             then cfg.hover_alpha else cfg.default_alpha) := by
        by_cases hx : cfg.hover_enabled = true ∧ hro = some info.handle
        · rw [if_pos hx, if_pos ((hcondeq info.handle).mp hx)]
        · rw [if_neg hx, if_neg (fun hc => hx ((hcondeq info.handle).mpr hc))]
      refine ⟨htar, ?_, ?_⟩
      · intro hhit
        rw [htar] at hhit
        unfold hoverStep
        rw [hinfo]
        dsimp only
        rw [if_pos hhit]
      · intro hmiss2
        rw [htar] at hmiss2
        unfold hoverStep
        rw [hinfo]
        dsimp only
        rw [if_neg hmiss2, htar]

/-- Witness for C1: one stored identity with hover enabled, its window
live and hovered; the tick is the fold of the step, and the step pushes
the hover alpha 50 and caches it. -/
theorem C1_reconcile_tick_witness :
    apply_hover_states ⟨fun _ _ => true⟩
        [("p|c|t", ⟨200, 50, true⟩)]
        [⟨5, "t", "c", 1, some "p"⟩] (some 5) []
      = [("p|c|t", (⟨200, 50, true⟩ : TransparencyConfig))].foldl
          (hoverStep ⟨fun _ _ => true⟩
            (buildWindowMap [⟨5, "t", "c", 1, some "p"⟩]) (some 5))
          ⟨[], []⟩
    ∧ hoverStep ⟨fun _ _ => true⟩
        (buildWindowMap [⟨5, "t", "c", 1, some "p"⟩]) (some 5)
        ⟨[], []⟩ ("p|c|t", ⟨200, 50, true⟩)
      = ⟨[("p|c|t", 50)], [(5, 50, true)]⟩ := by
  have h := C1_reconcile_tick ⟨fun _ _ => true⟩
    [("p|c|t", ⟨200, 50, true⟩)] [⟨5, "t", "c", 1, some "p"⟩]
    (some 5) [] (List.cons_ne_nil _ _)
  have h2 := h.2 (some 5)
    (by intro x hx; injection hx with hx2; omega)
    ⟨[], []⟩ "p|c|t" ⟨200, 50, true⟩
  have h3 := (h2.2 ⟨5, "t", "c", 1, some "p"⟩ (by rfl)).2.2
    (by intro hc; exact Option.noConfusion hc)
  exact ⟨h.1, h3⟩

end WT
